import Mathlib

/-!
Verification of `dice_tracker.py` (newdoug/dice_roll_result_tracker).

The program is an interactive command loop (`cmd.Cmd` subclass `App`) that
tallies occurrences of integer dice outcomes in a `defaultdict(int)` keyed
by `int`, restricted by an inclusive range `[range_low, range_high]`, with
commands `i` (increment), `d` (decrement), `rs` (set range), `reset`,
`p` (print stats), `save` and `load` (JSON persistence), and exit commands.

The shallow embedding below models:
  * the tracker `defaultdict(int)` as an association list `Tally` with
    Python-dict semantics (insertion order preserved, in-place value update,
    append on new key, `defaultdict` read defaulting to 0);
  * Python `int(...)` parsing of tokens and `str(int)` rendering of JSON
    keys as executable functions on `List Char`;
  * floating-point statistics of `do_p` over `ℚ`, with Python's
    `round(x, 2)` (round-half-to-even) modelled exactly, and Python's
    `ZeroDivisionError` modelled as an `Option` failure;
  * the command-dispatch layer of `cmd.Cmd`, which does not catch
    exceptions raised inside `do_*` methods: an uncaught exception is the
    `Outcome.crashed` result and terminates the session.
-/

/-! ## Character / decimal-integer utilities (Python `str.split`, `int`, `str`) -/

/-- `c` is one of the whitespace characters Python `str.split()` splits on
(the ones relevant to this CLI). -/
def isWs (c : Char) : Bool :=
  c = ' ' ∨ c = '\t' ∨ c = '\n' ∨ c = '\r'

/-- Worker for `splitWs`: accumulates the current token (reversed) in `cur`. -/
def splitWsAux (cs : List Char) (cur : List Char) : List (List Char) :=
  match cs with
  | [] => if cur = [] then [] else [cur.reverse]
  | c :: rest =>
    if isWs c then
      (if cur = [] then splitWsAux rest [] else cur.reverse :: splitWsAux rest [])
    else splitWsAux rest (c :: cur)

/-- Python `args.split()`: split on whitespace, dropping empty tokens. -/
def splitWs (s : String) : List (List Char) := splitWsAux s.data []

/-- Python `str.strip()` on a token. -/
def stripChars (cs : List Char) : List Char :=
  ((cs.dropWhile isWs).reverse.dropWhile isWs).reverse

/-- The decimal digit character for `d` (`0 ≤ d ≤ 9`). -/
def digitChar (d : Nat) : Char := Char.ofNat (48 + d)

/-- Numeric value of a decimal digit character, `none` for a non-digit. -/
def digitVal (c : Char) : Option Nat :=
  if 48 ≤ c.toNat ∧ c.toNat ≤ 57 then some (c.toNat - 48) else none

/-- Little-endian decimal digits of `n`, with explicit fuel so that the
definition is structural (kernel-reducible). `digitsFuel f n` is correct
whenever `n ≤ f`. -/
def digitsFuel : Nat → Nat → List Nat
  | 0, _ => []
  | fuel + 1, n => if n = 0 then [] else n % 10 :: digitsFuel fuel (n / 10)

/-- Little-endian decimal digits of `n` (empty for `0`). -/
def natDigits (n : Nat) : List Nat := digitsFuel n n

/-- Recompose a little-endian decimal digit list into a number. -/
def undigits : List Nat → Nat
  | [] => 0
  | d :: ds => d + 10 * undigits ds

/-- Decimal rendering of a natural number, as Python `str` produces it. -/
def natChars (n : Nat) : List Char :=
  if n = 0 then ['0'] else (natDigits n).reverse.map digitChar

/-- Decimal rendering of an integer, as Python `str(int)` / `json.dumps`
render dict keys. -/
def intChars (n : Int) : List Char :=
  if n < 0 then '-' :: natChars (-n).toNat else natChars n.toNat

/-- `String` form of `intChars`, used in printed messages. -/
def intString (n : Int) : String := String.mk (intChars n)

/-- All-or-nothing traversal: a Python comprehension that raises on the
first failing element, discarding everything. -/
def mapOptM (f : α → Option β) : List α → Option (List β)
  | [] => some []
  | a :: l =>
    match f a with
    | none => none
    | some b =>
      match mapOptM f l with
      | none => none
      | some bs => some (b :: bs)

/-- Parse a non-empty all-digit character list as a natural number
(leading zeros accepted, as Python `int` does). -/
def parseDigits (cs : List Char) : Option Nat :=
  match mapOptM digitVal cs with
  | none => none
  | some ds => if ds = [] then none else some (undigits ds.reverse)

/-- Python `int(s)` on an already-stripped token: optional sign followed by
at least one decimal digit; anything else raises `ValueError` (`none`). -/
def pyInt (cs : List Char) : Option Int :=
  match cs with
  | [] => none
  | c :: rest =>
    if c = '-' then (parseDigits rest).map (fun n : Nat => -(n : Int))
    else if c = '+' then (parseDigits rest).map (fun n : Nat => (n : Int))
    else (parseDigits (c :: rest)).map (fun n : Nat => (n : Int))

/-! ## The tracker mapping (`defaultdict(int)` with Python dict semantics) -/

/-- The tracker: an insertion-ordered mapping from outcome to count. -/
abbrev Tally := List (Int × Int)

/-- Python dict lookup `t[k]` (first binding; keys are unique in every
dict the program builds). -/
def lookupT : Tally → Int → Option Int
  | [], _ => none
  | (k', v) :: rest, k => if k' = k then some v else lookupT rest k

/-- Python `k in t`. -/
def memT (t : Tally) (k : Int) : Bool := (lookupT t k).isSome

/-- Python dict store `t[k] = v`: update in place if the key exists,
append otherwise. -/
def setT : Tally → Int → Int → Tally
  | [], k, v => [(k, v)]
  | (k', v') :: rest, k, v =>
    if k' = k then (k, v) :: rest else (k', v') :: setT rest k v

/-- `defaultdict(int)` read: missing keys read as `0`. -/
def getD (t : Tally) (k : Int) : Int := (lookupT t k).getD 0

/-- Python `t.keys()` (in insertion order). -/
def keysT (t : Tally) : List Int := t.map Prod.fst

/-- Python `sum(t.values())`. -/
def sumT (t : Tally) : Int := (t.map Prod.snd).sum

/-- `count` consecutive integers starting at `lo`. -/
def pyRangeAux (lo : Int) : Nat → List Int
  | 0 => []
  | n + 1 => lo :: pyRangeAux (lo + 1) n

/-- Python `range(lo, hi)` as the list `[lo, lo+1, ..., hi-1]`. -/
def pyRange (lo hi : Int) : List Int := pyRangeAux lo (hi - lo).toNat

/-! ## Engine state and core operations -/

/-- The mutable state of `App`: the configured range and the tracker. -/
structure St where
  range_low : Int
  range_high : Int
  tracker : Tally
deriving DecidableEq, Repr

/-- `_get_range_err`: the out-of-range error message (the source's typo
"no in range" included). -/
def _get_range_err (num low high : Int) : String :=
  "Number " ++ intString num ++ " no in range [" ++ intString low ++ ", "
    ++ intString high ++ "]"

/-- `_set_range(low, high)`: store the new bounds, then give every integer
of `range(low, high + 1)` an entry, defaulting to 0, without touching
entries that already exist. -/
def _set_range (low high : Int) (st : St) : St :=
  { range_low := low
    range_high := high
    tracker :=
      (pyRange low (high + 1)).foldl
        (fun t i => if memT t i then t else setT t i 0) st.tracker }

/-- `_reset_tracker()`: fresh empty `defaultdict`, then `_set_range` with
the current bounds. -/
def _reset_tracker (st : St) : St :=
  _set_range st.range_low st.range_high { st with tracker := [] }

/-- The state of `App.__init__`: bounds 1 and 6, then `_reset_tracker`. -/
def initSt : St := _reset_tracker { range_low := 1, range_high := 6, tracker := [] }

/-- `_in_range(num)` with `raise_exc=False`: Python
`num in range(range_low, range_high + 1)`. -/
def _in_range (st : St) (num : Int) : Bool :=
  decide (num ∈ pyRange st.range_low (st.range_high + 1))

/-- `_track(num, add_amount)`: out-of-range values are reported on stderr
(the returned `Option String`) and nothing changes; otherwise
`tracker[num] += add_amount` with the `defaultdict` read. -/
def _track (num add_amount : Int) (st : St) : St × Option String :=
  if !(_in_range st num) then
    (st, some (_get_range_err num st.range_low st.range_high))
  else
    ({ st with tracker := setT st.tracker num (getD st.tracker num + add_amount) }, none)

/-- `_inc(num, amount=1)`. -/
def _inc (num : Int) (st : St) (amount : Int := 1) : St × Option String :=
  _track num amount st

/-- `_dec(num, amount=1)`. -/
def _dec (num : Int) (st : St) (amount : Int := 1) : St × Option String :=
  _track num (-amount) st

/-! ## Command handlers -/

/-- The stderr message of `do_i` / `do_d` when a token fails `int(...)`
(the `{exc}` detail elided). -/
def parseFailMsg : String := "Failed to process input args"

/-- The stderr message of `do_rs` on arity or parse failure. -/
def rsFailMsg : String := "Please enter 2 integers (range low and high)"

/-- Parse every token of a batch command, as the list comprehension
`[int(arg.strip()) for arg in args.split()]` does: any failure aborts the
whole list. -/
def parseArgs (args : String) : Option (List Int) :=
  mapOptM (fun tok => pyInt (stripChars tok)) (splitWs args)

/-- Run `_track` with the given per-value amount over a batch (the
`for arg in args` loop), collecting the stderr lines of the out-of-range
reports in order. -/
def trackAll (amount : Int) (ns : List Int) (st : St) : St × List String :=
  match ns with
  | [] => (st, [])
  | n :: rest =>
    let p := _track n amount st
    let r := trackAll amount rest p.1
    (r.1, p.2.toList ++ r.2)

/-- `do_i(args)`: parse all tokens first (a failure aborts the command with
a stderr message and no state change), then `_inc` each value. -/
def do_i (args : String) (st : St) : St × List String :=
  match parseArgs args with
  | none => (st, [parseFailMsg])
  | some ns => trackAll 1 ns st

/-- `do_d(args)`: parse all tokens first, then `_dec` each value. -/
def do_d (args : String) (st : St) : St × List String :=
  match parseArgs args with
  | none => (st, [parseFailMsg])
  | some ns => trackAll (-1) ns st

/-- `do_reset(_)`. -/
def do_reset (st : St) : St := _reset_tracker st

/-- `do_rs(args)`: exactly two integer tokens or a stderr complaint with no
state change; otherwise `_set_range`. -/
def do_rs (args : String) (st : St) : St × Option String :=
  match splitWs args with
  | [a, b] =>
    match pyInt (stripChars a), pyInt (stripChars b) with
    | some lo, some hi => (_set_range lo hi st, none)
    | _, _ => (st, some rsFailMsg)
  | _ => (st, some rsFailMsg)

/-! ## Statistics (`do_p`), with Python floats modelled over `ℚ` -/

/-- Insert into a sorted list (ascending). -/
def insSorted (x : Int) : List Int → List Int
  | [] => [x]
  | y :: ys => if x ≤ y then x :: y :: ys else y :: insSorted x ys

/-- Python `sorted(...)` on integers. -/
def sortInts (l : List Int) : List Int := l.foldr insSorted []

/-- Floor of a rational, via floor division of the numerator by the
denominator (kept kernel-computable). -/
def ratFloor (q : ℚ) : ℤ := Int.fdiv q.num (q.den : ℤ)

/-- Python `round(x)` to an integer: round half to even (banker's
rounding). -/
def roundHalfEven (q : ℚ) : ℤ :=
  if q - (ratFloor q : ℚ) < 1 / 2 then ratFloor q
  else if 1 / 2 < q - (ratFloor q : ℚ) then ratFloor q + 1
  else if ratFloor q % 2 = 0 then ratFloor q else ratFloor q + 1

/-- Python `round(x, 2)`. -/
def round2 (q : ℚ) : ℚ := (roundHalfEven (q * 100) : ℚ) / 100

/-- The report printed by `do_p` when the total is nonzero. Percentages
are stored unrounded where the code keeps them unrounded; the rounding
applied for display is recorded in the rounded fields. -/
structure Report where
  rows : List (Int × Int × ℚ)
  total : Int
  total_percent : ℚ
  average_roll : ℚ
  expected_average_roll : ℚ
  average_num_occurrences : ℚ
  fair_percent : ℚ
deriving DecidableEq, Repr

/-- What `do_p` prints: nothing but the total-is-zero notice, or a full
report. -/
inductive POut where
  | noOccurrences
  | report (r : Report)
deriving DecidableEq, Repr

/-- `do_p(_)`: compute the statistics over the current tracker. `none`
models an uncaught `ZeroDivisionError`: Python raises on `x / 0`, first at
the `len(self.tracker)` divisions and then at the
`1 / (range_high + 1 - range_low)` fair-percent expression. -/
def do_p (st : St) : Option POut :=
  let total := sumT st.tracker
  if total = 0 then some POut.noOccurrences
  else if st.tracker.length = 0 then none
  else if st.range_high + 1 - st.range_low = 0 then none
  else
    let keys := sortInts (keysT st.tracker)
    let rows := keys.map (fun k =>
      (k, getD st.tracker k, ((getD st.tracker k : ℚ) / (total : ℚ)) * 100))
    some (POut.report
      { rows := rows
        total := total
        total_percent := round2 ((rows.map (fun r => r.2.2)).sum)
        average_roll :=
          (((st.tracker.map (fun p => p.1 * p.2)).sum : ℤ) : ℚ) / (total : ℚ)
        expected_average_roll :=
          ((keysT st.tracker).sum : ℚ) / (st.tracker.length : ℚ)
        average_num_occurrences := (total : ℚ) / (st.tracker.length : ℚ)
        fair_percent :=
          round2 ((1 / ((st.range_high : ℚ) + 1 - (st.range_low : ℚ))) * 100) })

/-! ## Persistence (`do_save` / `do_load`) -/

/-- `do_save`'s file payload: `json.dumps(self.tracker, indent=2)` renders
the tracker as a JSON object whose keys are the decimal strings of the
integer keys. The JSON text encode/decode itself is the standard
library's; the repository-level content is this key-to-text conversion. -/
def do_save (st : St) : List (List Char × Int) :=
  st.tracker.map (fun p => (intChars p.1, p.2))

/-- What `handle.read()` + `json.loads` can hand back inside `do_load`:
`none` models content that fails to read or parse as a JSON object
(`ValueError` raised), `some kvs` a parsed object of string keys and
integer counts. -/
abbrev FileContent := Option (List (List Char × Int))

/-- Storage failures of `do_load`. -/
inductive LoadErr where
  | fileNotFound
  | malformed
deriving DecidableEq, Repr

/-- One entry of the `{int(k): v for k, v in ...}` comprehension. -/
def parseEntry (p : List Char × Int) : Option (Int × Int) :=
  (pyInt p.1).map (fun k => (k, p.2))

/-- `do_load(filename)`. `file = none`: `open` raises before anything else
(state unchanged). Otherwise `_reset_tracker` runs first; then the content
is read and parsed (`some none`, or a key that `int(k)` rejects, raises
with the reset already done); on success the parsed entries are written
into the tracker via `dict.update`. -/
def do_load (file : Option FileContent) (st : St) : St × Option LoadErr :=
  match file with
  | none => (st, some LoadErr.fileNotFound)
  | some none => (_reset_tracker st, some LoadErr.malformed)
  | some (some kvs) =>
    let st1 := _reset_tracker st
    match mapOptM parseEntry kvs with
    | none => (st1, some LoadErr.malformed)
    | some kvs2 =>
      ({ st1 with tracker := kvs2.foldl (fun t p => setT t p.1 p.2) st1.tracker },
        none)

/-! ## Command dispatch (`cmd.Cmd.cmdloop` behaviour) -/

/-- One parsed command line, with the environment a command touches
attached: `save`'s target writability and `load`'s file content. -/
inductive Command where
  | i (args : String)
  | d (args : String)
  | rs (args : String)
  | reset
  | p
  | save (writable : Bool)
  | load (file : Option FileContent)
  | exitCmd
deriving DecidableEq

/-- How one `cmdloop` iteration ends. `cmd.Cmd.cmdloop` has no handler
around `onecmd`, so an exception raised inside a `do_*` method propagates
and aborts the whole process (`crashed`); `do_exit`/`do_quit`/`do_EOF`
call `sys.exit(0)` (`exited`). -/
inductive Outcome where
  | continued
  | exited
  | crashed
deriving DecidableEq, Repr

/-- One iteration of the command loop on a parsed command. `do_i`, `do_d`
and `do_rs` catch their own `ValueError`s; `do_p`'s `ZeroDivisionError`
and the file errors of `do_save` / `do_load` are uncaught. -/
def onecmd (c : Command) (st : St) : St × Outcome :=
  match c with
  | Command.i a => ((do_i a st).1, Outcome.continued)
  | Command.d a => ((do_d a st).1, Outcome.continued)
  | Command.rs a => ((do_rs a st).1, Outcome.continued)
  | Command.reset => (do_reset st, Outcome.continued)
  | Command.p =>
    match do_p st with
    | some _ => (st, Outcome.continued)
    | none => (st, Outcome.crashed)
  | Command.save w => if w then (st, Outcome.continued) else (st, Outcome.crashed)
  | Command.load f =>
    match do_load f st with
    | (st2, none) => (st2, Outcome.continued)
    | (st2, some _) => (st2, Outcome.crashed)
  | Command.exitCmd => (st, Outcome.exited)

/-! ## Reachable states -/

/-- States the engine can actually be in: the `__init__` state, grown by
the state-changing commands (`do_p` and `do_save` never change state). -/
inductive Reachable : St → Prop where
  | init : Reachable initSt
  | inc : ∀ st a, Reachable st → Reachable (do_i a st).1
  | dec : ∀ st a, Reachable st → Reachable (do_d a st).1
  | rs : ∀ st a, Reachable st → Reachable (do_rs a st).1
  | reset : ∀ st, Reachable st → Reachable (do_reset st)
  | load : ∀ st f, Reachable st → Reachable (do_load f st).1

/-! ## Lemmas: the tally as a finite map -/

set_option maxRecDepth 8000

theorem lookupT_eq_none_iff (t : Tally) (k : Int) :
    lookupT t k = none ↔ k ∉ keysT t := by
  induction t with
  | nil => simp [lookupT, keysT]
  | cons p rest ih =>
    obtain ⟨k', v⟩ := p
    by_cases h : k' = k
    · subst h
      simp [lookupT, keysT]
    · simp [lookupT, keysT, h, ih, Ne.symm h]

theorem mem_keysT_iff_isSome (t : Tally) (k : Int) :
    k ∈ keysT t ↔ (lookupT t k).isSome = true := by
  rcases h : lookupT t k with _ | v
  · simp [(lookupT_eq_none_iff t k).1 h]
  · have : ¬ lookupT t k = none := by simp [h]
    have hk := (lookupT_eq_none_iff t k).not.1 this
    simpa using hk

theorem memT_iff (t : Tally) (k : Int) : memT t k = true ↔ k ∈ keysT t := by
  rw [memT, mem_keysT_iff_isSome]

theorem lookupT_setT_self (t : Tally) (k v : Int) :
    lookupT (setT t k v) k = some v := by
  induction t with
  | nil => simp [setT, lookupT]
  | cons p rest ih =>
    obtain ⟨k', v'⟩ := p
    by_cases h : k' = k
    · simp [setT, lookupT, h]
    · simp [setT, lookupT, h, ih]

theorem lookupT_setT_ne (t : Tally) (k v k' : Int) (h : k' ≠ k) :
    lookupT (setT t k v) k' = lookupT t k' := by
  have h' : ¬ k = k' := fun e => h e.symm
  induction t with
  | nil => simp [setT, lookupT, h']
  | cons p rest ih =>
    obtain ⟨k0, v0⟩ := p
    by_cases h0 : k0 = k
    · subst h0
      simp [setT, lookupT, h']
    · simp [setT, lookupT, h0, ih]

theorem keysT_setT_of_not_mem (t : Tally) (k v : Int) (h : k ∉ keysT t) :
    keysT (setT t k v) = keysT t ++ [k] := by
  induction t with
  | nil => simp [setT, keysT]
  | cons p rest ih =>
    obtain ⟨k0, v0⟩ := p
    simp only [keysT, List.map_cons, List.mem_cons, not_or] at h
    have hne : ¬ k0 = k := fun e => h.1 e.symm
    have ih' := ih h.2
    simp only [keysT] at ih'
    simp [setT, keysT, hne, ih']

theorem keysT_setT_of_mem (t : Tally) (k v : Int) (h : k ∈ keysT t) :
    keysT (setT t k v) = keysT t := by
  induction t with
  | nil => simp [keysT] at h
  | cons p rest ih =>
    obtain ⟨k0, v0⟩ := p
    by_cases h0 : k0 = k
    · simp [setT, keysT, h0]
    · simp only [keysT, List.map_cons, List.mem_cons] at h
      rcases h with h | h
      · exact absurd h.symm h0
      · have ih' := ih h
        simp only [keysT] at ih'
        simp [setT, keysT, h0, ih']

theorem mem_keysT_setT (t : Tally) (k v k' : Int) :
    k' ∈ keysT (setT t k v) ↔ k' ∈ keysT t ∨ k' = k := by
  by_cases hm : k ∈ keysT t
  · rw [keysT_setT_of_mem t k v hm]
    constructor
    · exact Or.inl
    · rintro (h | rfl)
      · exact h
      · exact hm
  · rw [keysT_setT_of_not_mem t k v hm]
    simp

theorem nodup_keysT_setT (t : Tally) (k v : Int) (h : (keysT t).Nodup) :
    (keysT (setT t k v)).Nodup := by
  by_cases hm : k ∈ keysT t
  · rwa [keysT_setT_of_mem t k v hm]
  · rw [keysT_setT_of_not_mem t k v hm]
    simp [List.nodup_append, h, hm]

theorem mem_pyRangeAux (n : Nat) (lo k : Int) :
    k ∈ pyRangeAux lo n ↔ lo ≤ k ∧ k < lo + n := by
  induction n generalizing lo with
  | zero => simp [pyRangeAux]
  | succ n ih =>
    simp only [pyRangeAux, List.mem_cons, ih]
    constructor
    · rintro (rfl | ⟨h1, h2⟩) <;> constructor <;> omega
    · rintro ⟨h1, h2⟩
      by_cases hk : k = lo
      · exact Or.inl hk
      · right; constructor <;> omega

theorem mem_pyRange (lo hi k : Int) : k ∈ pyRange lo hi ↔ lo ≤ k ∧ k < hi := by
  rw [pyRange, mem_pyRangeAux]
  omega

theorem _in_range_iff (st : St) (num : Int) :
    _in_range st num = true ↔ st.range_low ≤ num ∧ num ≤ st.range_high := by
  unfold _in_range
  rw [decide_eq_true_iff, mem_pyRange]
  omega

/-! ## Lemmas: `_set_range`, `_reset_tracker` -/

theorem lookupT_ensure_foldl (xs : List Int) (t : Tally) (k : Int) :
    lookupT (xs.foldl (fun a i => if memT a i then a else setT a i 0) t) k
      = if k ∈ keysT t then lookupT t k else if k ∈ xs then some 0 else none := by
  induction xs generalizing t with
  | nil =>
    simp only [List.foldl_nil, List.not_mem_nil, if_false]
    split
    · rfl
    · next hk => exact (lookupT_eq_none_iff t k).2 hk
  | cons x xs ih =>
    simp only [List.foldl_cons]
    by_cases hx : memT t x
    · rw [if_pos hx, ih]
      have hxk : x ∈ keysT t := (memT_iff t x).1 hx
      by_cases hk : k ∈ keysT t
      · rw [if_pos hk, if_pos hk]
      · have hkx : ¬ k = x := fun e => hk (e ▸ hxk)
        simp [if_neg hk, List.mem_cons, hkx]
    · rw [if_neg hx, ih]
      have hxk : x ∉ keysT t := fun hh => hx ((memT_iff t x).2 hh)
      by_cases hkx : k = x
      · subst hkx
        have h1 : k ∈ keysT (setT t k 0) := (mem_keysT_setT t k 0 k).2 (Or.inr rfl)
        rw [if_pos h1, lookupT_setT_self, if_neg hxk]
        simp [List.mem_cons]
      · have h2 : k ∈ keysT (setT t x 0) ↔ k ∈ keysT t := by
          rw [mem_keysT_setT]
          simp [hkx]
        by_cases hk : k ∈ keysT t
        · rw [if_pos (h2.2 hk), lookupT_setT_ne t x 0 k hkx, if_pos hk]
        · rw [if_neg (fun hh => hk (h2.1 hh)), if_neg hk]
          simp [List.mem_cons, hkx]

theorem nodup_keysT_ensure_foldl (xs : List Int) (t : Tally)
    (h : (keysT t).Nodup) :
    (keysT (xs.foldl (fun a i => if memT a i then a else setT a i 0) t)).Nodup := by
  induction xs generalizing t with
  | nil => exact h
  | cons x xs ih =>
    simp only [List.foldl_cons]
    by_cases hx : memT t x
    · rw [if_pos hx]
      exact ih t h
    · rw [if_neg hx]
      exact ih _ (nodup_keysT_setT t x 0 h)

theorem lookupT_set_range (low high : Int) (st : St) (k : Int) :
    lookupT (_set_range low high st).tracker k
      = if k ∈ keysT st.tracker then lookupT st.tracker k
        else if k ∈ pyRange low (high + 1) then some 0 else none :=
  lookupT_ensure_foldl (pyRange low (high + 1)) st.tracker k

theorem mem_keysT_set_range (low high : Int) (st : St) (k : Int) :
    k ∈ keysT (_set_range low high st).tracker
      ↔ k ∈ keysT st.tracker ∨ k ∈ pyRange low (high + 1) := by
  rw [mem_keysT_iff_isSome, lookupT_set_range]
  by_cases h1 : k ∈ keysT st.tracker
  · have := (mem_keysT_iff_isSome st.tracker k).1 h1
    simp [h1, this]
  · simp only [if_neg h1]
    by_cases h2 : k ∈ pyRange low (high + 1) <;> simp [h1, h2]

theorem nodup_keysT_set_range (low high : Int) (st : St)
    (h : (keysT st.tracker).Nodup) :
    (keysT (_set_range low high st).tracker).Nodup :=
  nodup_keysT_ensure_foldl (pyRange low (high + 1)) st.tracker h

theorem lookupT_reset_tracker (st : St) (k : Int) :
    lookupT (_reset_tracker st).tracker k
      = if k ∈ pyRange st.range_low (st.range_high + 1) then some 0 else none := by
  show lookupT (_set_range _ _ _).tracker k = _
  rw [lookupT_set_range]
  simp [keysT]

theorem mem_keysT_reset_tracker (st : St) (k : Int) :
    k ∈ keysT (_reset_tracker st).tracker
      ↔ k ∈ pyRange st.range_low (st.range_high + 1) := by
  show k ∈ keysT (_set_range _ _ _).tracker ↔ _
  rw [mem_keysT_set_range]
  simp [keysT]

theorem nodup_keysT_reset_tracker (st : St) :
    (keysT (_reset_tracker st).tracker).Nodup :=
  nodup_keysT_set_range _ _ _ (by simp [keysT])

/-! ## Lemmas: `dict.update` via a fold of stores -/

theorem mem_keysT_foldl_setT (l : List (Int × Int)) (acc : Tally) (k : Int)
    (h : k ∈ keysT acc) :
    k ∈ keysT (l.foldl (fun a p => setT a p.1 p.2) acc) := by
  induction l generalizing acc with
  | nil => exact h
  | cons p l ih => exact ih _ ((mem_keysT_setT acc p.1 p.2 k).2 (Or.inl h))

theorem nodup_keysT_foldl_setT (l : List (Int × Int)) (acc : Tally)
    (h : (keysT acc).Nodup) :
    (keysT (l.foldl (fun a p => setT a p.1 p.2) acc)).Nodup := by
  induction l generalizing acc with
  | nil => exact h
  | cons p l ih => exact ih _ (nodup_keysT_setT _ _ _ h)

theorem lookupT_foldl_setT (l : List (Int × Int)) (acc : Tally) (k : Int)
    (hnd : (keysT l).Nodup) :
    lookupT (l.foldl (fun a p => setT a p.1 p.2) acc) k
      = if k ∈ keysT l then lookupT l k else lookupT acc k := by
  induction l generalizing acc with
  | nil => simp [keysT, lookupT]
  | cons p l ih =>
    obtain ⟨k0, v0⟩ := p
    simp only [keysT, List.map_cons, List.nodup_cons] at hnd
    have hk0 : k0 ∉ keysT l := hnd.1
    have hnd' : (keysT l).Nodup := hnd.2
    simp only [List.foldl_cons]
    rw [ih _ hnd']
    by_cases hkl : k ∈ keysT l
    · have hmem : k ∈ keysT ((k0, v0) :: l) := by
        simp only [keysT, List.map_cons, List.mem_cons]
        exact Or.inr hkl
      have hne : ¬ k0 = k := fun e => hk0 (e ▸ hkl)
      rw [if_pos hkl, if_pos hmem]
      simp [lookupT, hne]
    · rw [if_neg hkl]
      by_cases hk : k = k0
      · subst hk
        have hmem : k ∈ keysT ((k, v0) :: l) := by
          simp [keysT]
        rw [lookupT_setT_self, if_pos hmem]
        simp [lookupT]
      · have hne : ¬ k0 = k := fun e => hk e.symm
        have hmem : k ∉ keysT ((k0, v0) :: l) := by
          simp only [keysT, List.map_cons, List.mem_cons, not_or]
          exact ⟨hk, hkl⟩
        rw [lookupT_setT_ne _ _ _ _ hk, if_neg hmem]

/-! ## Lemmas: decimal round-trip `int(str(n)) = n` -/

theorem digitsFuel_lt_ten (f : Nat) : ∀ n d, d ∈ digitsFuel f n → d < 10 := by
  induction f with
  | zero => intro n d h; simp [digitsFuel] at h
  | succ f ih =>
    intro n d h
    simp only [digitsFuel] at h
    by_cases hn : n = 0
    · simp [hn] at h
    · rw [if_neg hn] at h
      rcases List.mem_cons.1 h with h | h
      · subst h
        exact Nat.mod_lt _ (by norm_num)
      · exact ih _ _ h

theorem undigits_digitsFuel (f : Nat) : ∀ n, n ≤ f → undigits (digitsFuel f n) = n := by
  induction f with
  | zero =>
    intro n h
    have hn : n = 0 := Nat.le_zero.1 h
    subst hn
    rfl
  | succ f ih =>
    intro n h
    by_cases hn : n = 0
    · subst hn
      simp [digitsFuel, undigits]
    · simp only [digitsFuel, if_neg hn, undigits]
      rw [ih (n / 10) (by omega)]
      omega

theorem digitsFuel_ne_nil (f n : Nat) (h1 : n ≠ 0) (h2 : n ≤ f) :
    digitsFuel f n ≠ [] := by
  intro e
  have h3 := undigits_digitsFuel f n h2
  rw [e] at h3
  exact h1 (by simpa [undigits] using h3.symm)

theorem digitVal_digitChar (d : Nat) (h : d < 10) : digitVal (digitChar d) = some d := by
  interval_cases d <;> decide

theorem digitChar_ne_sign (d : Nat) (h : d < 10) :
    digitChar d ≠ '-' ∧ digitChar d ≠ '+' := by
  interval_cases d <;> exact ⟨by decide, by decide⟩

theorem mapOptM_digitVal_digitChar (ds : List Nat) (h : ∀ d ∈ ds, d < 10) :
    mapOptM digitVal (ds.map digitChar) = some ds := by
  induction ds with
  | nil => rfl
  | cons d ds ih =>
    have hd := digitVal_digitChar d (h d (by simp))
    have hds := ih (fun x hx => h x (by simp [hx]))
    simp [mapOptM, hd, hds]

theorem mem_natChars_ne_sign (m : Nat) (c : Char) (h : c ∈ natChars m) :
    c ≠ '-' ∧ c ≠ '+' := by
  unfold natChars at h
  by_cases hm : m = 0
  · rw [if_pos hm] at h
    simp at h
    subst h
    exact ⟨by decide, by decide⟩
  · rw [if_neg hm] at h
    rcases List.mem_map.1 h with ⟨d, hd, rfl⟩
    exact digitChar_ne_sign d (digitsFuel_lt_ten m m d (List.mem_reverse.1 hd))

theorem natChars_ne_nil (m : Nat) : natChars m ≠ [] := by
  unfold natChars
  by_cases hm : m = 0
  · simp [hm]
  · rw [if_neg hm]
    simp only [ne_eq, List.map_eq_nil_iff, List.reverse_eq_nil_iff]
    exact digitsFuel_ne_nil m m hm le_rfl

theorem parseDigits_natChars (m : Nat) : parseDigits (natChars m) = some m := by
  by_cases hm : m = 0
  · subst hm
    decide
  · have hlt : ∀ d ∈ (natDigits m).reverse, d < 10 :=
      fun d hd => digitsFuel_lt_ten m m d (List.mem_reverse.1 hd)
    have hne : (natDigits m).reverse ≠ [] := by
      simp only [ne_eq, List.reverse_eq_nil_iff]
      exact digitsFuel_ne_nil m m hm le_rfl
    unfold natChars
    rw [if_neg hm]
    simp only [parseDigits, mapOptM_digitVal_digitChar _ hlt]
    rw [if_neg hne, List.reverse_reverse]
    rw [show natDigits m = digitsFuel m m from rfl, undigits_digitsFuel m m le_rfl]

theorem pyInt_natChars (m : Nat) : pyInt (natChars m) = some (m : Int) := by
  rcases hc : natChars m with _ | ⟨c, rest⟩
  · exact absurd hc (natChars_ne_nil m)
  · have hsig := mem_natChars_ne_sign m c (by rw [hc]; simp)
    show pyInt (c :: rest) = some (m : Int)
    simp only [pyInt]
    rw [if_neg hsig.1, if_neg hsig.2, ← hc, parseDigits_natChars]
    rfl

theorem pyInt_intChars (n : Int) : pyInt (intChars n) = some n := by
  by_cases hn : n < 0
  · unfold intChars
    rw [if_pos hn]
    show pyInt ('-' :: natChars (-n).toNat) = some n
    rw [show pyInt ('-' :: natChars (-n).toNat)
          = (parseDigits (natChars (-n).toNat)).map (fun m : Nat => -(m : Int))
        from rfl]
    rw [parseDigits_natChars]
    show some (-((-n).toNat : Int)) = some n
    congr 1
    rw [Int.toNat_of_nonneg (by omega)]
    omega
  · unfold intChars
    rw [if_neg hn, pyInt_natChars]
    congr 1
    exact Int.toNat_of_nonneg (by omega)

theorem mapOptM_parseEntry_do_save (t : Tally) :
    mapOptM parseEntry (t.map (fun p => (intChars p.1, p.2))) = some t := by
  induction t with
  | nil => rfl
  | cons p rest ih =>
    simp [mapOptM, parseEntry, pyInt_intChars, ih]

/-! ## The reachable-state invariant: unique keys, range span covered -/

/-- Every integer of the configured span has an entry in the tracker. -/
def SpanCovered (st : St) : Prop :=
  ∀ i ∈ pyRange st.range_low (st.range_high + 1), i ∈ keysT st.tracker

/-- The structural invariant every engine state satisfies: tracker keys are
unique, and the whole configured span is present. -/
def InvSt (st : St) : Prop := (keysT st.tracker).Nodup ∧ SpanCovered st

theorem _track_range (num a : Int) (st : St) :
    ((_track num a st).1).range_low = st.range_low ∧
      ((_track num a st).1).range_high = st.range_high := by
  unfold _track
  split <;> simp

theorem mem_keysT_track (num a : Int) (st : St) (k : Int)
    (h : k ∈ keysT st.tracker) :
    k ∈ keysT ((_track num a st).1).tracker := by
  unfold _track
  split
  · exact h
  · exact (mem_keysT_setT _ _ _ _).2 (Or.inl h)

theorem nodup_keysT_track (num a : Int) (st : St)
    (h : (keysT st.tracker).Nodup) :
    (keysT ((_track num a st).1).tracker).Nodup := by
  unfold _track
  split
  · exact h
  · exact nodup_keysT_setT _ _ _ h

theorem inv_track (num a : Int) (st : St) (h : InvSt st) :
    InvSt ((_track num a st).1) := by
  obtain ⟨h1, h2⟩ := h
  refine ⟨nodup_keysT_track num a st h1, ?_⟩
  intro i hi
  have hr := _track_range num a st
  rw [show ((_track num a st).1).range_low = st.range_low from hr.1,
      show ((_track num a st).1).range_high = st.range_high from hr.2] at hi
  exact mem_keysT_track num a st i (h2 i hi)

theorem inv_trackAll (a : Int) (ns : List Int) (st : St) (h : InvSt st) :
    InvSt ((trackAll a ns st).1) := by
  induction ns generalizing st with
  | nil => exact h
  | cons n ns ih => exact ih _ (inv_track n a st h)

theorem inv_set_range (low high : Int) (st : St)
    (hn : (keysT st.tracker).Nodup) :
    InvSt (_set_range low high st) :=
  ⟨nodup_keysT_set_range low high st hn,
   fun i hi => (mem_keysT_set_range low high st i).2 (Or.inr hi)⟩

theorem inv_reset (st : St) : InvSt (_reset_tracker st) :=
  inv_set_range _ _ _ (by simp [keysT])

theorem inv_do_i (a : String) (st : St) (h : InvSt st) : InvSt ((do_i a st).1) := by
  rcases hp : parseArgs a with _ | ns
  · simp only [do_i, hp]
    exact h
  · simp only [do_i, hp]
    exact inv_trackAll 1 ns st h

theorem inv_do_d (a : String) (st : St) (h : InvSt st) : InvSt ((do_d a st).1) := by
  rcases hp : parseArgs a with _ | ns
  · simp only [do_d, hp]
    exact h
  · simp only [do_d, hp]
    exact inv_trackAll (-1) ns st h

theorem inv_do_rs (a : String) (st : St) (h : InvSt st) : InvSt ((do_rs a st).1) := by
  unfold do_rs
  split
  · split
    · exact inv_set_range _ _ _ h.1
    · exact h
  · exact h

theorem inv_do_load (f : Option FileContent) (st : St) (h : InvSt st) :
    InvSt ((do_load f st).1) := by
  unfold do_load
  split
  · exact h
  · exact inv_reset st
  · split
    · exact inv_reset st
    · refine ⟨nodup_keysT_foldl_setT _ _ (nodup_keysT_reset_tracker st), ?_⟩
      intro i hi
      exact mem_keysT_foldl_setT _ _ _ ((mem_keysT_reset_tracker st i).2 hi)

theorem reachable_inv (st : St) (h : Reachable st) : InvSt st := by
  induction h with
  | init => exact inv_reset _
  | inc st a _ ih => exact inv_do_i a st ih
  | dec st a _ ih => exact inv_do_d a st ih
  | rs st a _ ih => exact inv_do_rs a st ih
  | reset st _ _ => exact inv_reset st
  | load st f _ ih => exact inv_do_load f st ih

/-! ## Batch-parse failure lemma -/

theorem mapOptM_eq_none_of_mem (f : α → Option β) (l : List α) (a : α)
    (ha : a ∈ l) (hf : f a = none) : mapOptM f l = none := by
  induction l with
  | nil => simp at ha
  | cons x l ih =>
    rcases List.mem_cons.1 ha with rfl | ha2
    · simp [mapOptM, hf]
    · simp only [mapOptM, ih ha2]
      cases f x <;> rfl

/-! ## The claims -/

/-- C1: for every engine state and every value outside the inclusive range
bounds, `_track` (hence `_inc` / `_dec`, which call it with amount ±1)
returns the state completely unchanged together with the out-of-range
stderr message built by `_get_range_err` from the offending value and the
active bounds; in particular no key is created for that value. -/
theorem C1_track_out_of_range_noop (st : St) (num amt : Int)
    (h : ¬ (st.range_low ≤ num ∧ num ≤ st.range_high)) :
    _track num amt st = (st, some (_get_range_err num st.range_low st.range_high)) ∧
      (lookupT st.tracker num = none →
        lookupT ((_track num amt st).1).tracker num = none) := by
  have hb : _in_range st num = false := by
    rcases hbv : _in_range st num
    · rfl
    · exact absurd ((_in_range_iff st num).1 hbv) h
  have h1 : _track num amt st
      = (st, some (_get_range_err num st.range_low st.range_high)) := by
    simp [_track, hb]
  refine ⟨h1, fun hl => ?_⟩
  rw [h1]
  exact hl

/-- Witness for C1 at the spec's scenario: `Increment(7)` under range
`[1, 6]` is rejected with the message and leaves no key 7. -/
theorem C1_witness :
    (¬ (initSt.range_low ≤ 7 ∧ (7 : Int) ≤ initSt.range_high)) ∧
      (_track 7 1 initSt
          = (initSt, some (_get_range_err 7 initSt.range_low initSt.range_high)) ∧
        (lookupT initSt.tracker 7 = none →
          lookupT ((_track 7 1 initSt).1).tracker 7 = none)) :=
  ⟨by decide, C1_track_out_of_range_noop initSt 7 1 (by decide)⟩

/-- C2 (counterexample): right after the `SetRange` call `rs 1 4` from the
start state, the tracker still has key 5 although the configured range is
`[1, 4]` — so the key set does not always equal the range span after a
range change. -/
theorem C2_counterexample :
    Reachable ((do_rs "1 4" initSt).1) ∧
      ((do_rs "1 4" initSt).1).range_low = 1 ∧
      ((do_rs "1 4" initSt).1).range_high = 4 ∧
      (5 : Int) ∈ keysT ((do_rs "1 4" initSt).1).tracker ∧
      ¬ ((5 : Int) ∈ pyRange 1 (4 + 1)) :=
  ⟨Reachable.rs initSt "1 4" Reachable.init, by decide, by decide, by decide,
   by decide⟩

/-- C2 (amended): after any `Reset` the tracker's key set exactly equals
the current range span; after any `SetRange(low, high)` every integer of
the new span has a key, but keys present before the call persist: the key
set equals the old key set united with the new span. -/
theorem C2_reset_exact_set_range_superset (st : St) (low high k : Int) :
    (k ∈ keysT (_reset_tracker st).tracker
        ↔ k ∈ pyRange st.range_low (st.range_high + 1)) ∧
      (k ∈ keysT (_set_range low high st).tracker
        ↔ k ∈ keysT st.tracker ∨ k ∈ pyRange low (high + 1)) :=
  ⟨mem_keysT_reset_tracker st k, mem_keysT_set_range low high st k⟩

/-- C3: `_set_range(low, high)` gives every integer of the new span that
had no entry a zero entry, keeps the value of every key already present,
and removes nothing; in the spec's scenario (increments of 5, 5, 6 under
`[1, 6]`, then `SetRange(1, 4)`) keys 5 and 6 survive with counts 2 and 1. -/
theorem C3_set_range_fills_keeps_retains :
    (∀ (st : St) (low high k : Int),
      lookupT (_set_range low high st).tracker k
        = if k ∈ keysT st.tracker then lookupT st.tracker k
          else if k ∈ pyRange low (high + 1) then some 0 else none) ∧
      lookupT (_set_range 1 4 ((do_i "5 5 6" initSt)).1).tracker 5 = some 2 ∧
      lookupT (_set_range 1 4 ((do_i "5 5 6" initSt)).1).tracker 6 = some 1 :=
  ⟨fun st low high k => lookupT_set_range low high st k, by decide, by decide⟩

/-- C4: a storage failure inside `do_load` (file missing or content
malformed) or `do_save` (unwritable target) raises an exception that
`cmd.Cmd.cmdloop` does not catch, so the command loop does not continue:
the session crashes. This contradicts the claim that such errors are
confined to the failing command. -/
theorem C4_storage_error_crashes_session :
    onecmd (Command.load none) initSt = (initSt, Outcome.crashed) ∧
      onecmd (Command.load (some none)) initSt
        = (_reset_tracker initSt, Outcome.crashed) ∧
      onecmd (Command.save false) initSt = (initSt, Outcome.crashed) :=
  ⟨by decide, by decide, by decide⟩

/-- C5: saving any reachable state and loading the file into an engine
configured with the same range bounds reproduces the original tally
exactly (as a mapping), including stale out-of-range keys; keys go to
decimal text on save and are parsed back by `int(k)` on load. -/
theorem C5_save_load_roundtrip (st st2 : St) (hr : Reachable st)
    (hl : st2.range_low = st.range_low) (hh : st2.range_high = st.range_high)
    (k : Int) :
    lookupT ((do_load (some (some (do_save st))) st2).1).tracker k
      = lookupT st.tracker k := by
  obtain ⟨hnd, hspan⟩ := reachable_inv st hr
  have hparse : mapOptM parseEntry (do_save st) = some st.tracker :=
    mapOptM_parseEntry_do_save st.tracker
  simp only [do_load, hparse]
  rw [lookupT_foldl_setT _ _ _ hnd]
  by_cases hk : k ∈ keysT st.tracker
  · rw [if_pos hk]
  · rw [if_neg hk]
    have h1 : k ∉ pyRange st.range_low (st.range_high + 1) :=
      fun hc => hk (hspan k hc)
    have h2 : lookupT (_reset_tracker st2).tracker k = none := by
      rw [lookupT_reset_tracker, hl, hh]
      exact if_neg h1
    rw [h2, (lookupT_eq_none_iff st.tracker k).2 hk]

/-- Witness for C5: a state with a stale count on key 5 (range shrunk from
`[1, 6]` to `[1, 4]`) round-trips through save and load into a fresh
engine with the same range; the stale key keeps its count 1. -/
theorem C5_witness :
    Reachable ((do_rs "1 4" ((do_i "2 5" initSt)).1).1) ∧
      lookupT ((do_load
            (some (some (do_save ((do_rs "1 4" ((do_i "2 5" initSt)).1).1))))
            ((do_rs "1 4" initSt).1)).1).tracker 5
        = lookupT ((do_rs "1 4" ((do_i "2 5" initSt)).1).1).tracker 5 ∧
      lookupT ((do_rs "1 4" ((do_i "2 5" initSt)).1).1).tracker 5 = some 1 :=
  ⟨Reachable.rs _ "1 4" (Reachable.inc initSt "2 5" Reachable.init),
   C5_save_load_roundtrip _ _
     (Reachable.rs _ "1 4" (Reachable.inc initSt "2 5" Reachable.init))
     (by decide) (by decide) 5,
   by decide⟩

/-- C6: a batch increment or decrement whose argument string contains a
token `int(...)` rejects fails during the up-front list comprehension: the
whole command is aborted with the parse-failure stderr message and the
state is completely unchanged — no token of the batch is tracked. -/
theorem C6_batch_parse_failure_aborts (args : String) (st : St)
    (h : ∃ tok ∈ splitWs args, pyInt (stripChars tok) = none) :
    do_i args st = (st, [parseFailMsg]) ∧ do_d args st = (st, [parseFailMsg]) := by
  have hp : parseArgs args = none := by
    obtain ⟨tok, htok, hfail⟩ := h
    exact mapOptM_eq_none_of_mem _ _ tok htok hfail
  exact ⟨by simp [do_i, hp], by simp [do_d, hp]⟩

/-- Witness for C6: the batch `i 2 x 3` (and `d 2 x 3`) aborts wholesale on
the malformed token `x`, changing nothing. -/
theorem C6_witness :
    (∃ tok ∈ splitWs "2 x 3", pyInt (stripChars tok) = none) ∧
      do_i "2 x 3" initSt = (initSt, [parseFailMsg]) ∧
      do_d "2 x 3" initSt = (initSt, [parseFailMsg]) :=
  ⟨⟨['x'], by decide, by decide⟩,
   C6_batch_parse_failure_aborts "2 x 3" initSt ⟨['x'], by decide, by decide⟩⟩

/-- C7: whenever `do_p` produces a full report (nonzero total, and a
nonzero range width so the fair-percent division is defined), the reported
fair percent is `round(1 / (range_high + 1 - range_low) * 100, 2)`,
computed from the live configured bounds and from nothing else. -/
theorem C7_fair_percent_uses_live_bounds (st : St)
    (h1 : ¬ sumT st.tracker = 0)
    (h2 : ¬ st.range_high + 1 - st.range_low = 0) :
    ∃ r, do_p st = some (POut.report r) ∧
      r.fair_percent
        = round2 ((1 / ((st.range_high : ℚ) + 1 - (st.range_low : ℚ))) * 100) := by
  have hlen : ¬ st.tracker.length = 0 := by
    intro hl
    apply h1
    rw [List.length_eq_zero.1 hl]
    rfl
  simp only [do_p, h1, hlen, h2, if_false]
  exact ⟨_, rfl, rfl⟩

/-- Witness for C7 at the spec's scenario: each of 1..6 incremented once,
then the range shrunk to `[1, 4]`: the tracker still has 6 keys, yet the
fair percent is computed from the live bounds and is exactly 25. -/
theorem C7_witness :
    (¬ sumT ((do_rs "1 4" ((do_i "1 2 3 4 5 6" initSt)).1).1).tracker = 0) ∧
      (¬ ((do_rs "1 4" ((do_i "1 2 3 4 5 6" initSt)).1).1).range_high + 1
          - ((do_rs "1 4" ((do_i "1 2 3 4 5 6" initSt)).1).1).range_low = 0) ∧
      (∃ r, do_p ((do_rs "1 4" ((do_i "1 2 3 4 5 6" initSt)).1).1)
            = some (POut.report r) ∧
          r.fair_percent
            = round2 ((1 / ((((do_rs "1 4" ((do_i "1 2 3 4 5 6" initSt)).1).1).range_high : ℚ)
                + 1 - (((do_rs "1 4" ((do_i "1 2 3 4 5 6" initSt)).1).1).range_low : ℚ))) * 100)) ∧
      round2 ((1 / ((((do_rs "1 4" ((do_i "1 2 3 4 5 6" initSt)).1).1).range_high : ℚ)
          + 1 - (((do_rs "1 4" ((do_i "1 2 3 4 5 6" initSt)).1).1).range_low : ℚ))) * 100) = 25 ∧
      ((do_rs "1 4" ((do_i "1 2 3 4 5 6" initSt)).1).1).tracker.length = 6 :=
  ⟨by decide, by decide,
   C7_fair_percent_uses_live_bounds _ (by decide) (by decide),
   by with_unfolding_all decide, by decide⟩

/-- C8 (counterexample): the reachable state obtained by `d 3` from the
start state stores count −1 for key 3 — counts are not non-negative. -/
theorem C8_counterexample :
    Reachable ((do_d "3" initSt).1) ∧
      lookupT ((do_d "3" initSt).1).tracker 3 = some (-1) ∧ ((-1 : Int) < 0) :=
  ⟨Reachable.dec initSt "3" Reachable.init, by decide, by decide⟩

/-- C8 (amended): tally counts are integers with no non-negativity floor:
decrementing an in-range value always lowers its stored count by exactly
one, even below zero. -/
theorem C8_dec_has_no_floor (st : St) (n : Int)
    (h : st.range_low ≤ n ∧ n ≤ st.range_high) :
    lookupT ((_dec n st).1).tracker n = some (getD st.tracker n - 1) := by
  have hb : _in_range st n = true := (_in_range_iff st n).2 h
  show lookupT ((_track n (-1) st).1).tracker n = _
  simp only [_track, hb, Bool.not_true, Bool.false_eq_true, if_false]
  rw [lookupT_setT_self]
  rfl

/-- Witness for C8 (amended): decrementing the zero count of 3 in the
start state stores −1. -/
theorem C8_dec_witness :
    (initSt.range_low ≤ 3 ∧ (3 : Int) ≤ initSt.range_high) ∧
      lookupT ((_dec 3 initSt).1).tracker 3 = some (getD initSt.tracker 3 - 1) :=
  ⟨by decide, C8_dec_has_no_floor initSt 3 (by decide)⟩

/-- C9: a reachable state (increment 3, then `rs 5 4`) has a nonzero total
and a range satisfying `range_high + 1 - range_low = 0`, so `do_p` passes
the zero-total guard and hits the unguarded fair-percent division by zero:
no report is produced and the uncaught exception crashes the session. -/
theorem C9_stats_division_by_zero :
    Reachable ((do_rs "5 4" ((do_i "3" initSt)).1).1) ∧
      ¬ sumT ((do_rs "5 4" ((do_i "3" initSt)).1).1).tracker = 0 ∧
      ((do_rs "5 4" ((do_i "3" initSt)).1).1).range_high + 1
          - ((do_rs "5 4" ((do_i "3" initSt)).1).1).range_low = 0 ∧
      do_p ((do_rs "5 4" ((do_i "3" initSt)).1).1) = none ∧
      onecmd Command.p ((do_rs "5 4" ((do_i "3" initSt)).1).1)
        = ((do_rs "5 4" ((do_i "3" initSt)).1).1, Outcome.crashed) :=
  ⟨Reachable.rs _ "5 4" (Reachable.inc initSt "3" Reachable.init),
   by decide, by decide, by decide, by decide⟩

/-- C10: `do_load` resets the tracker right after the file is opened and
before its content parses, so on malformed content (unparseable JSON, or a
key `int(k)` rejects) the engine is left in the freshly reset state — the
prior tally is already lost — and the malformed-content error is raised. -/
theorem C10_load_resets_before_parse (st : St) (content : FileContent)
    (h : content = none ∨ ∃ kvs, content = some kvs ∧ mapOptM parseEntry kvs = none) :
    do_load (some content) st = (_reset_tracker st, some LoadErr.malformed) := by
  rcases h with rfl | ⟨kvs, rfl, hk⟩
  · rfl
  · simp [do_load, hk]

/-- Witness for C10: loading a file whose object has the unparseable key
`x` over a state with a tracked count leaves the engine reset — which
differs from the prior state. -/
theorem C10_witness :
    do_load (some (some [(['x'], 1)])) ((do_i "3" initSt).1)
        = (_reset_tracker ((do_i "3" initSt).1), some LoadErr.malformed) ∧
      _reset_tracker ((do_i "3" initSt).1) ≠ (do_i "3" initSt).1 :=
  ⟨C10_load_resets_before_parse ((do_i "3" initSt).1) (some [(['x'], 1)])
     (Or.inr ⟨[(['x'], 1)], rfl, by decide⟩),
   by decide⟩
